import Mathlib

/-!
Verification development for the mixtec-fst rule compiler
(src/mixtec_fst/src/rewrite.rs and src/mixtec_fst/src/main.rs).

The machines are shallowly embedded: a weighted transducer is a record of
states, start state, weighted final states and a transition list over the
tropical semiring (weight `none` is the tropical zero, +infinity;
`some q` is a finite cost).  Operations implemented inside the repository
(node compilation, rule assembly, the statement folds) are translated from
the Rust source.  Operations supplied by the external automaton library
(rustfst) or by the external parserule crate are modelled from the spec,
as documented on each such definition; pipeline-level external operations
(determinize, compose, minimize, ...) are kept opaque as constructors of
an expression type `FstExpr`, so that theorems about the top-level
pipelines speak about which operations are performed, in which order, on
which operands.
-/

namespace MixtecFst

/-- Tropical weight: `none` is the semiring zero (+infinity, unreachable),
`some q` a finite cost.  The semiring one is `some 0`. -/
abbrev TropWeight := Option ℚ

/-- One weighted transition: source state, input label, output label,
weight, next state.  Label 0 is epsilon (nothing consumed / emitted),
mirroring rustfst. -/
structure Tr where
  src : Nat
  ilabel : Nat
  olabel : Nat
  weight : TropWeight
  nextstate : Nat
deriving DecidableEq

/-- A weighted finite-state transducer, mirroring rustfst's VectorFst:
a number of states (ids 0 .. numStates-1), an optional start state,
final states with acceptance weights, and a transition list. -/
structure Fst where
  numStates : Nat
  start : Option Nat
  finals : List (Nat × TropWeight)
  trs : List Tr
deriving DecidableEq

/-- The shared symbol table (spec 3): symbols mapped to integer labels by
position; index 0 is the epsilon symbol, written `<eps>` as in rustfst. -/
structure SymbolTable where
  syms : List String
deriving DecidableEq

/-- rustfst SymbolTable::get_label: the label of a symbol, if present. -/
def SymbolTable.get_label (t : SymbolTable) (s : String) : Option Nat :=
  t.syms.findIdx? (fun x => x == s)

/-- rustfst SymbolTable::iter: all (label, symbol) pairs in label order. -/
def SymbolTable.iter (t : SymbolTable) : List (Nat × String) :=
  t.syms.enum

/-- The rule-language AST (spec 3).  Produced by the external parserule
crate; the shape is fixed by the spec's data model and by how
rewrite.rs pattern-matches on it. -/
inductive RegexAST where
  | Epsilon : RegexAST
  | Boundary : RegexAST
  | Comment : RegexAST
  | Char : Char → RegexAST
  | Group : List RegexAST → RegexAST
  | Disjunction : List RegexAST → RegexAST
  | Class : List String → RegexAST
  | ClassComplement : List String → RegexAST
  | Star : RegexAST → RegexAST
  | Plus : RegexAST → RegexAST
  | Option : RegexAST → RegexAST
  | Macro : String → RegexAST

/-- A context rewrite rule (spec 3): left context, source, right context,
target. -/
structure RewriteRule where
  left : RegexAST
  source : RegexAST
  right : RegexAST
  target : RegexAST

/-- A script statement (spec 3). -/
inductive Statement where
  | Comment : Statement
  | MacroDef : String → RegexAST → Statement
  | Rule : RewriteRule → Statement

/-- The macro table.  Rust uses a HashMap; an association list where the
most recent binding for a key shadows older ones models HashMap insert
(which overwrites) together with HashMap get (which sees the latest
value). -/
abbrev Macros := List (String × RegexAST)

/-- HashMap::insert as used at rewrite.rs line 19: the new binding
replaces (shadows) any previous binding for the same name; the returned
old value is discarded by the caller. -/
def insertMacro (m : Macros) (k : String) (v : RegexAST) : Macros :=
  (k, v) :: m

/-- VectorFst::emplace_tr: append one transition. -/
def emplaceTr (f : Fst) (s il ol : Nat) (w : TropWeight) (t : Nat) : Fst :=
  { f with trs := f.trs ++ [Tr.mk s il ol w t] }

/-- VectorFst::set_final: record (or overwrite) a state's final weight. -/
def setFinal (f : Fst) (s : Nat) (w : TropWeight) : Fst :=
  { f with finals := f.finals.filter (fun p => !(p.1 == s)) ++ [(s, w)] }

/-- VectorFst::set_start. -/
def setStart (f : Fst) (s : Nat) : Fst :=
  { f with start := some s }

/-- Shift a transition's states by an offset (used when one machine's
states are appended after another's). -/
def shiftTr (off : Nat) (t : Tr) : Tr :=
  { t with src := t.src + off, nextstate := t.nextstate + off }

/-- Modelled from the spec (3, lifecycles): concatenation appends the
second automaton's structure after the first's and glues each final
state of the first, at its final weight, to the start of the second by
an epsilon transition (rustfst's concat, an external primitive). -/
def concatF (a b : Fst) : Fst :=
  let off := a.numStates
  let trsB := b.trs.map (shiftTr off)
  let finalsB := b.finals.map (fun p => (p.1 + off, p.2))
  match b.start with
  | some s2 =>
    { numStates := a.numStates + b.numStates
      start := a.start
      trs := a.trs ++ a.finals.map (fun p => Tr.mk p.1 0 0 p.2 (s2 + off)) ++ trsB
      finals := finalsB }
  | none =>
    { numStates := a.numStates + b.numStates
      start := a.start
      trs := a.trs ++ trsB
      finals := finalsB }

/-- Modelled from the spec (3, lifecycles): union merges two automata
into one with nondeterministic choice (rustfst's union, an external
primitive): the second machine's states are appended and its start is
reached from the first machine's start by an epsilon transition. -/
def unionF (a b : Fst) : Fst :=
  let off := a.numStates
  let trsB := b.trs.map (shiftTr off)
  let finalsB := b.finals.map (fun p => (p.1 + off, p.2))
  match b.start with
  | none =>
    { numStates := a.numStates + b.numStates, start := a.start
      trs := a.trs ++ trsB, finals := a.finals ++ finalsB }
  | some s2 =>
    match a.start with
    | some s1 =>
      { numStates := a.numStates + b.numStates, start := some s1
        trs := a.trs ++ [Tr.mk s1 0 0 (some 0) (s2 + off)] ++ trsB
        finals := a.finals ++ finalsB }
    | none =>
      { numStates := a.numStates + b.numStates, start := some (s2 + off)
        trs := a.trs ++ trsB, finals := a.finals ++ finalsB }

/-- Modelled from the spec (4.1 Plus): one-or-more closure adds a
loop-back epsilon transition from every final state, at its final
weight, to the start (rustfst's closure with ClosurePlus, external). -/
def closurePlus (f : Fst) : Fst :=
  match f.start with
  | some s => { f with trs := f.trs ++ f.finals.map (fun p => Tr.mk p.1 0 0 p.2 s) }
  | none => f

/-- Modelled from the spec (4.1 Star): zero-or-more closure: the
loop-backs of `closurePlus` plus a new start state that is final at
weight one and reaches the old start by an epsilon transition
(rustfst's closure with ClosureStar, external). -/
def closureStar (f : Fst) : Fst :=
  match f.start with
  | some s =>
    let g := closurePlus f
    { numStates := g.numStates + 1
      start := some g.numStates
      trs := g.trs ++ [Tr.mk g.numStates 0 0 (some 0) s]
      finals := g.finals ++ [(g.numStates, some 0)] }
  | none => f

/-- Modelled from the spec (4.1 Option): rustfst's add_super_final_state
(external): a fresh state, reached from every previous final state by an
epsilon transition at that state's final weight, becomes the only final
state, at weight one.  Returns the machine and the new state. -/
def addSuperFinalState (f : Fst) : Fst × Nat :=
  let q := f.numStates
  ({ numStates := f.numStates + 1
     start := f.start
     trs := f.trs ++ f.finals.map (fun p => Tr.mk p.1 0 0 p.2 q)
     finals := [(q, some 0)] }, q)

/-- The two-state seed fragment produced by rustfst's fst![0 => 0]:
one epsilon transition from the start to a final state at weight one. -/
def seedFst : Fst :=
  { numStates := 2, start := some 0, finals := [(1, some 0)]
    trs := [Tr.mk 0 0 0 (some 0) 1] }

/-- A linear two-state machine with a single (ilabel, olabel) transition
at weight one and final weight `w`: rustfst's fst![l], fst![l => l; w]
and fst![0 => 0; 10.0] literals. -/
def singleSymFst (il ol : Nat) (w : TropWeight) : Fst :=
  { numStates := 2, start := some 0, finals := [(1, w)]
    trs := [Tr.mk 0 il ol (some 0) 1] }

/-- Modelled from the spec (4.2, 6): parserule's sigma_star (external):
the unrestricted "any sequence of symbols, zero or more" identity
relation: a single state, start and final at weight one, with an l:l
self-loop at weight one for every non-epsilon label of the table. -/
def sigma_star (symt : SymbolTable) : Fst :=
  { numStates := 1, start := some 0, finals := [(0, some 0)]
    trs := symt.iter.filterMap (fun p =>
      if p.1 = 0 then none else some (Tr.mk 0 p.1 p.1 (some 0) 0)) }

/-- Modelled from the spec (6): parserule's optimize_fst (external), a
best-effort simplification pass that preserves the weighted language;
modelled as the identity on the machine (the tolerance argument of the
source is configuration noise and is dropped). -/
def optimize_fst (f : Fst) : Fst := f

/-- rewrite.rs output_to_epsilons (lines 304-320): force every
transition's output label to epsilon. -/
def output_to_epsilons (f : Fst) : Fst :=
  { f with trs := f.trs.map (fun t => { t with olabel := 0 }) }

/-- rewrite.rs input_to_epsilons (lines 322-338): force every
transition's input label to epsilon. -/
def input_to_epsilons (f : Fst) : Fst :=
  { f with trs := f.trs.map (fun t => { t with ilabel := 0 }) }

/-- The loop body of the Class branch of node_fst (rewrite.rs lines
210-219): one transition from entry 0 to exit 1 for the symbol's label,
defaulting to epsilon (label 0, with a logged warning) when the symbol
is missing from the table, at weight one. -/
def classStep (symt : SymbolTable) (f : Fst) (s : String) : Fst :=
  emplaceTr f 0 ((symt.get_label s).getD 0) ((symt.get_label s).getD 0) (some 0) 1

/-- The Class fragment of node_fst (rewrite.rs lines 203-221): states
q0 = 0 (start) and q1 = 1 (final at weight 0.0), an epsilon self-loop at
q1 of tropical-zero weight, then one transition per listed symbol via
`classStep`. -/
def classFst (symt : SymbolTable) (class0 : List String) : Fst :=
  class0.foldl (classStep symt)
    { numStates := 2, start := some 0, finals := [(1, some 0)]
      trs := [Tr.mk 1 0 0 none 1] }

/-- The loop body of the ClassComplement branch (rewrite.rs lines
232-236): a symbol of the table outside the exclusion set contributes an
l:l transition from entry 0 to exit 1 at weight one. -/
def ccStep (cls : List String) (f : Fst) (p : Nat × String) : Fst :=
  if p.2 ∈ cls then f else emplaceTr f 0 p.1 p.1 (some 0) 1

/-- The ClassComplement fragment of node_fst (rewrite.rs lines 224-238):
the boundary symbol and the epsilon symbol are added to the exclusion
set, then every (label, symbol) pair of the table outside the set yields
one transition from q0 = 0 (start) to q1 = 1 (final at weight 0.0). -/
def classComplementFst (symt : SymbolTable) (class0 : List String) : Fst :=
  symt.iter.foldl (ccStep ("#" :: "<eps>" :: class0))
    { numStates := 2, start := some 0, finals := [(1, some 0)], trs := [] }

/-- The Disjunction branch's quirk (rewrite.rs lines 192-194): two fresh
states and a tropical-zero epsilon transition between them are added to
the outer seed machine itself (not to the union being built). -/
def addDisjStates (f : Fst) : Fst :=
  { f with numStates := f.numStates + 2, trs := f.trs ++ [Tr.mk f.numStates 0 0 none (f.numStates + 1)] }

/-- rewrite.rs node_fst (lines 154-302): compile one AST node to a
fragment by concatenating onto the fst![0 => 0] seed.  The Rust
recursion is unbounded through Macro lookups (a self-referential macro
diverges); the `fuel` argument bounds that recursion depth in the model
and at 0 returns the untouched seed, a case never reached for the
scripts examined here. -/
def node_fst (symt : SymbolTable) (macros : Macros) : Nat → RegexAST → Fst
  | 0, _ => seedFst
  | fuel + 1, node =>
    match node with
    | RegexAST.Epsilon => seedFst
    | RegexAST.Comment => seedFst
    | RegexAST.Group nodes =>
      nodes.foldl (fun acc n => concatF acc (node_fst symt macros fuel n)) seedFst
    | RegexAST.Boundary =>
      concatF seedFst (singleSymFst ((symt.get_label "#").getD 1) ((symt.get_label "#").getD 1) (some 0))
    | RegexAST.Char c =>
      concatF seedFst (singleSymFst ((symt.get_label c.toString).getD 0) ((symt.get_label c.toString).getD 0) (some 0))
    | RegexAST.Disjunction nodes =>
      let fst1 := addDisjStates seedFst
      let fst2 := nodes.foldl (fun acc n => unionF acc (node_fst symt macros fuel n))
        { numStates := 0, start := none, finals := [], trs := [] }
      concatF fst1 fst2
    | RegexAST.Class class0 => concatF seedFst (classFst symt class0)
    | RegexAST.ClassComplement class0 => concatF seedFst (classComplementFst symt class0)
    | RegexAST.Star n => concatF seedFst (closureStar (node_fst symt macros fuel n))
    | RegexAST.Plus n => concatF seedFst (closurePlus (node_fst symt macros fuel n))
    | RegexAST.Option n =>
      let inner := node_fst symt macros fuel n
      let start_state := inner.start.getD 0
      let g := addSuperFinalState inner
      concatF seedFst (emplaceTr g.1 start_state 0 0 (some 0) g.2)
    | RegexAST.Macro key =>
      concatF seedFst (node_fst symt macros fuel ((List.lookup key macros).getD RegexAST.Epsilon))

/-- The arrow test of rewrite.rs line 83:
nodes.iter().position(|x| x == &RegexAST::Char('>')). -/
def isArrow : RegexAST → Bool
  | RegexAST.Char c => c == '>'
  | _ => false

/-- The underlying-sequence computation of linearze_rule_fst
(rewrite.rs lines 83-90) on the children of a source Group: with a
first arrow at index idx the source slices nodes[1..idx], which drops
the group's first child and aborts (slice panic) when idx = 0; with no
arrow the whole child list is kept.  `none` models the panic. -/
def underlying_seq_nodes (nodes : List RegexAST) : Option (List RegexAST) :=
  match nodes.findIdx? isArrow with
  | some idx => if idx = 0 then none else some ((nodes.drop 1).take (idx - 1))
  | none => some nodes

/-- rewrite.rs linearze_rule_fst (lines 63-152): assemble one rewrite
rule into a transducer.  `none` models a panic: the source panics when
rule.source is not a Group (line 94) and when the slice nodes[1..idx]
is taken with the first arrow at index 0 (line 87).  The seed machine of
lines 70-77 and the fst![0 => 0] root of line 137 are written out
literally; tr_sort calls are omitted (they reorder transition storage
and do not change the machine's relation). -/
def linearze_rule_fst (symt : SymbolTable) (macros : Macros) (fuel : Nat)
    (rule : RewriteRule) (drop_left : Bool) : Option Fst :=
  let fst0 : Fst :=
    { numStates := 2, start := some 0, finals := [(1, some 0)]
      trs := [Tr.mk 0 0 0 (some 0) 1] }
  match rule.source with
  | RegexAST.Group nodes =>
    match underlying_seq_nodes nodes with
    | none => none
    | some new_seq =>
      let underlying_fst := input_to_epsilons (node_fst symt macros fuel (RegexAST.Group new_seq))
      let src_fst := output_to_epsilons (node_fst symt macros fuel (RegexAST.Group nodes))
      let tgt_fst := input_to_epsilons (node_fst symt macros fuel rule.target)
      let left_fst := match rule.left with
        | RegexAST.Epsilon => closureStar (sigma_star symt)
        | l => node_fst symt macros fuel l
      let right_fst := match rule.right with
        | RegexAST.Epsilon => closureStar (sigma_star symt)
        | r => node_fst symt macros fuel r
      let univ_acc := sigma_star symt
      let fst1 := if drop_left then fst0 else concatF fst0 left_fst
      let fst2 := concatF (concatF (concatF (concatF fst1 src_fst) underlying_fst) right_fst) univ_acc
      let fst3 := concatF fst2 tgt_fst
      let fst4 := setFinal fst3 (fst3.numStates - 1) (some 0)
      let root := setStart (concatF seedFst fst4) 0
      some (optimize_fst root)
  | _ => none

/-- Label-0 transitions consume and emit nothing: prepend a label to a
string only when it is not epsilon. -/
def pushLabel (l : Nat) (s : List Nat) : List Nat :=
  if l = 0 then s else l :: s

/-- Weighted acceptance from a state: a path of finite-weight transitions
ending in a finite-weight final state; the consumed input and emitted
output are the non-epsilon labels along the path.  Tropical-zero
(+infinity) transitions and final weights are unreachable and take part
in no accepting path. -/
inductive Accepts (f : Fst) : Nat → List Nat → List Nat → Prop where
  | done : ∀ {s : Nat} {q : ℚ}, (s, (some q : TropWeight)) ∈ f.finals → Accepts f s [] []
  | step : ∀ {i o : List Nat} (t : Tr) {q : ℚ}, t ∈ f.trs → t.weight = some q →
      Accepts f t.nextstate i o → Accepts f t.src (pushLabel t.ilabel i) (pushLabel t.olabel o)

/-- The machine accepts the (input, output) label-string pair: an
accepting path from the start state. -/
def FstAccepts (f : Fst) (i o : List Nat) : Prop :=
  ∃ s, f.start = some s ∧ Accepts f s i o

/-!
Pipeline-level model.  The top-level compilation passes of rewrite.rs
(compile_as_linear) and main.rs (the srcdir union builder) apply
external library operations (determinize, compose, minimize, the
optimization pass, rm_epsilon, parserule's compile_script and weighted
sigma-star) whose internals are outside this repository.  `FstExpr`
keeps those operations opaque as constructors, so the theorems below
speak about which operations the pipelines perform, in which order, on
which operands; machines built concretely inside the repository enter
the expression through `FstExpr.lit`.  tr_sort calls are omitted: they
reorder transition storage to meet composition's sort precondition and
do not change the represented relation.
-/

/-- An automaton-valued expression over the external library operations. -/
inductive FstExpr where
  | lit : Fst → FstExpr
  | weightedSigmaStarE : ℚ → FstExpr
  | compileScriptE : List Statement → FstExpr
  | determinizeFunctionalE : FstExpr → FstExpr
  | composeE : FstExpr → FstExpr → FstExpr
  | concatE : FstExpr → FstExpr → FstExpr
  | unionE : FstExpr → FstExpr → FstExpr
  | optimizeE : FstExpr → FstExpr
  | minimizeE : Bool → FstExpr → FstExpr
  | rmEpsilonE : FstExpr → FstExpr

/-- One statement of the compile_as_linear fold (rewrite.rs lines
15-34), threading the running base automaton and the macro table:
comments are skipped; MacroDef inserts with HashMap overwrite semantics;
a rule is assembled with dropLeftContext = true, the base is optimized,
and the rule fragment is unioned in.  `none` propagates a rule-assembly
panic. -/
def linStep (symt : SymbolTable) (fuel : Nat) (st : FstExpr × Macros)
    (stmt : Statement) : Option (FstExpr × Macros) :=
  match stmt with
  | Statement.Comment => some st
  | Statement.MacroDef mac d => some (st.1, insertMacro st.2 mac d)
  | Statement.Rule rule =>
    match linearze_rule_fst symt st.2 fuel rule true with
    | none => none
    | some fst2 => some (FstExpr.unionE (FstExpr.optimizeE st.1) (FstExpr.lit fst2), st.2)

/-- The lhs machine of composition iteration i of compile_as_linear
(rewrite.rs lines 44-48): seg_first with i copies of tone_seg
concatenated after it. -/
def iterToneSeg (seg_first tone_seg : Fst) : Nat → Fst
  | 0 => seg_first
  | i + 1 => concatF (iterToneSeg seg_first tone_seg i) tone_seg

/-- rewrite.rs compile_as_linear (lines 12-61): fold the statements over
a sigma-star base, determinize the result under the functional mode,
compile the boundary+segment and tone+segment context fragments, and
run the four-iteration context-composition loop (compose, optimize,
minimize with allow_nondet = false), seeded at sigma-star. -/
def compile_as_linear (symt : SymbolTable) (fuel : Nat)
    (script : List Statement) : Option FstExpr :=
  match script.foldlM (linStep symt fuel) (FstExpr.lit (sigma_star symt), ([] : Macros)) with
  | none => none
  | some (base, macros) =>
    let base2 := FstExpr.determinizeFunctionalE base
    let seg_first := node_fst symt macros fuel (RegexAST.Group [RegexAST.Boundary, RegexAST.Macro "segment"])
    let tone_seg := node_fst symt macros fuel (RegexAST.Group [RegexAST.Macro "tone", RegexAST.Macro "segment"])
    some ((List.range 4).foldl (fun acc i =>
      FstExpr.minimizeE false (FstExpr.optimizeE (FstExpr.composeE acc
        (FstExpr.concatE (FstExpr.lit (iterToneSeg seg_first tone_seg i)) base2))))
      (FstExpr.lit (sigma_star symt)))

/-- The constant filler fragment of the union builder (main.rs lines
231-243): rustfst's fst![0 => 0; 10.0], a two-state machine with one
epsilon transition and final weight 10.0. -/
def fillerFst : Fst :=
  { numStates := 2, start := some 0, finals := [(1, some 10)]
    trs := [Tr.mk 0 0 0 (some 0) 1] }

/-- Pad a machine with n concatenations of the filler fragment
(main.rs, the two padding loops at lines 230-244). -/
def padE (e : FstExpr) : Nat → FstExpr
  | 0 => e
  | n + 1 => FstExpr.concatE (padE e n) (FstExpr.lit fillerFst)

/-- The rule count of one rule file (main.rs lines 220-226): the number
of Rule statements of its script. -/
def countRules (script : List Statement) : Nat :=
  script.countP (fun st => match st with | Statement.Rule _ => true | _ => false)

/-- One file of the srcdir union-builder loop of main (main.rs lines
213-249), threading the accumulator and the running padding level
num_compose: a file whose rule count exceeds the level pads the
accumulator by the difference and raises the level; otherwise the
file's automaton is padded by (level - count); the (possibly padded)
file automaton is then unioned into the accumulator. -/
def unionStep (st : FstExpr × Nat) (script : List Statement) : FstExpr × Nat :=
  let num_rules := countRules script
  let fst_oth := FstExpr.compileScriptE script
  if num_rules > st.2 then
    (FstExpr.unionE (padE st.1 (num_rules - st.2)) fst_oth, num_rules)
  else
    (FstExpr.unionE st.1 (padE fst_oth (st.2 - num_rules)), st.2)

/-- The whole srcdir pipeline of main (main.rs lines 211-251): fold the
rule files over the weight-10 sigma-star accumulator at initial padding
level 1, then remove epsilon transitions. -/
def buildUnion (scripts : List (List Statement)) : FstExpr :=
  FstExpr.rmEpsilonE (scripts.foldl unionStep (FstExpr.weightedSigmaStarE 10, 1)).1

/-!
Validator model (main.rs can_generate_form, lines 77-121).  Applying
the compiled relation to an input string, minimizing, and decoding the
accepting paths are external parserule/rustfst operations; the relation
is therefore given extensionally, as the enumeration of (weight,
decoded output string) pairs it produces for each input.  Composing
with the linear acceptor of a string keeps exactly the paths whose
output is that string; minimization preserves the enumerated weighted
outputs.
-/

/-- One step of the deduplication map of can_generate_form (main.rs
lines 83-96): keep the minimum weight seen per distinct output string. -/
def dedupMinStep (seen : List (String × ℚ)) (p : ℚ × String) : List (String × ℚ) :=
  match List.lookup p.2 seen with
  | some w0 => if w0 > p.1 then seen.map (fun q => if q.1 == p.2 then (q.1, p.1) else q) else seen
  | none => seen ++ [(p.2, p.1)]

/-- The deduplicated (output, minimum weight) table of can_generate_form
(main.rs lines 83-96); the source builds it to log the ranked outputs. -/
def dedupMin (paths : List (ℚ × String)) : List (String × ℚ) :=
  paths.foldl dedupMinStep []

/-- main.rs can_generate_form (lines 77-121): wrap the input form and the
expected form in boundary markers; enumerate the relation's paths on the
wrapped input; build (and log) the deduplicated minimum-weight table;
compose with the acceptor of the wrapped expected form (directly when
the test input is the intermediate G3 representation, through the fixed
normalization relation N otherwise); accept iff the first decoded path
of that composition equals the wrapped expected form.  R is the compiled
relation and N the normalization relation built by get_fst_g3_to_base,
both given extensionally; the Except layer mirrors the Result return
type of the source, whose success branches are the only ones taken. -/
def can_generate_form (R N : String → List (ℚ × String)) (input form : String)
    (is_g3 : Bool) : Except String Bool :=
  let input2 := "#" ++ input ++ "#"
  let output2 := "#" ++ form ++ "#"
  let paths_all := R input2
  let _seen := dedupMin paths_all
  let generated : List (ℚ × String) :=
    if is_g3 then paths_all.filter (fun p => p.2 == output2)
    else paths_all.flatMap (fun p =>
      ((N p.2).filter (fun q => q.2 == output2)).map (fun q => (p.1 + q.1, q.2)))
  match generated.head? with
  | some pr => Except.ok (pr.2 == ("#" ++ form ++ "#"))
  | none => Except.ok false

/-- The minimum-weight output of the deduplicated table (first minimal
entry wins ties). -/
def bestDecodedOutput (paths : List (ℚ × String)) : Option String :=
  ((dedupMin paths).foldl (fun best p =>
    match best with
    | none => some p
    | some q => if p.2 < q.2 then some p else some q) none).map (fun p => p.1)

/-- Follows the wording of the spec (4.5) and of claim C8, for
comparison with `can_generate_form`: wrap both forms in boundary
markers, deduplicate the enumerated outputs keeping the minimum weight
per distinct output, and pass iff the best (lowest-weight) decoded
output equals the wrapped expected form. -/
def validate_spec (R : String → List (ℚ × String)) (input form : String) : Bool :=
  bestDecodedOutput (R ("#" ++ input ++ "#")) == some ("#" ++ form ++ "#")

/-!  Concrete fixtures used by the theorems below. -/

/-- A minimal symbol table: epsilon and the boundary symbol. -/
def symt0 : SymbolTable := { syms := ["<eps>", "#"] }

/-- The symbol table of the ClassComplement end-to-end scenario of claim
C5: exactly the symbols a, b and the boundary (plus rustfst's implicit
epsilon symbol at label 0). -/
def tab5 : SymbolTable := { syms := ["<eps>", "a", "b", "#"] }

/-- The machine compiled from ClassComplement over `tab5` excluding a:
the seed epsilon chain into the two-state complement fragment, whose
only symbol transition is b (label 2). -/
def m5 : Fst :=
  { numStates := 4, start := some 0, finals := [(3, some 0)]
    trs := [Tr.mk 0 0 0 (some 0) 1, Tr.mk 1 0 0 (some 0) 2, Tr.mk 2 2 2 (some 0) 3] }

/-- A symbol table for the Class counterexample: only the symbol a (and
epsilon); the symbol z of the class below is absent from it. -/
def tab4 : SymbolTable := { syms := ["<eps>", "a"] }

/-- A one-rule script for the union-builder scenario. -/
def scriptA : List Statement :=
  [Statement.Rule { left := RegexAST.Epsilon, source := RegexAST.Group []
                    right := RegexAST.Epsilon, target := RegexAST.Epsilon }]

/-- A three-rule script for the union-builder scenario. -/
def scriptB : List Statement :=
  [Statement.Rule { left := RegexAST.Epsilon, source := RegexAST.Group []
                    right := RegexAST.Epsilon, target := RegexAST.Epsilon },
   Statement.Rule { left := RegexAST.Epsilon, source := RegexAST.Group []
                    right := RegexAST.Epsilon, target := RegexAST.Epsilon },
   Statement.Rule { left := RegexAST.Epsilon, source := RegexAST.Group []
                    right := RegexAST.Epsilon, target := RegexAST.Epsilon }]

/-- A relation mapping the wrapped input #i# to two outputs: a
lower-weight output #x# and a higher-weight output #f# (the expected
one), used to separate best-output semantics from reachability. -/
def relC8 : String → List (ℚ × String) :=
  fun s => if s == "#i#" then [(1, "#x#"), (5, "#f#")] else []

/-!  Helper lemmas. -/

/-- Folding a fallible step over an appended list splits at the seam. -/
theorem foldlM_option_append {α β : Type} (f : β → α → Option β) (l1 l2 : List α) (b : β) :
    (l1 ++ l2).foldlM f b = (l1.foldlM f b).bind (fun c => l2.foldlM f c) := by
  induction l1 generalizing b with
  | nil => simp
  | cons a l ih =>
    simp only [List.cons_append, List.foldlM_cons]
    cases f b a with
    | none => rfl
    | some c => simp [ih]

/-- The Class-fragment fold only appends transitions: one per listed
symbol, labelled by the symbol's label-or-epsilon, at weight one. -/
theorem classFold_trs (symt : SymbolTable) (l : List String) (f : Fst) :
    (l.foldl (classStep symt) f).trs
      = f.trs ++ l.map (fun s =>
          Tr.mk 0 ((symt.get_label s).getD 0) ((symt.get_label s).getD 0) (some 0) 1) := by
  induction l generalizing f with
  | nil => simp
  | cons a l ih => simp [List.foldl_cons, classStep, emplaceTr, ih]

/-- The Class-fragment fold does not create states. -/
theorem classFold_numStates (symt : SymbolTable) (l : List String) (f : Fst) :
    (l.foldl (classStep symt) f).numStates = f.numStates := by
  induction l generalizing f with
  | nil => rfl
  | cons a l ih => simp [List.foldl_cons, classStep, emplaceTr, ih]

/-- The Class-fragment fold does not move the start state. -/
theorem classFold_start (symt : SymbolTable) (l : List String) (f : Fst) :
    (l.foldl (classStep symt) f).start = f.start := by
  induction l generalizing f with
  | nil => rfl
  | cons a l ih => simp [List.foldl_cons, classStep, emplaceTr, ih]

/-- The ClassComplement fold appends exactly one transition per
(label, symbol) pair outside the exclusion set. -/
theorem ccFold_trs (cls : List String) (l : List (Nat × String)) (f : Fst) :
    (l.foldl (ccStep cls) f).trs
      = f.trs ++ l.filterMap (fun p =>
          if p.2 ∈ cls then none else some (Tr.mk 0 p.1 p.1 (some 0) 1)) := by
  induction l generalizing f with
  | nil => simp
  | cons a l ih =>
    by_cases h : a.2 ∈ cls
    · simp [ccStep, h, ih]
    · simp [ccStep, h, ih, emplaceTr]

/-- A rule assembly on a Group source panics exactly when the
underlying-sequence slice does. -/
theorem linearze_none_iff_u (symt : SymbolTable) (macros : Macros) (fuel : Nat)
    (l rt tgt : RegexAST) (nodes : List RegexAST) (dl : Bool) :
    linearze_rule_fst symt macros fuel
      { left := l, source := RegexAST.Group nodes, right := rt, target := tgt } dl = none
      ↔ underlying_seq_nodes nodes = none := by
  simp only [linearze_rule_fst]
  cases h : underlying_seq_nodes nodes <;> simp [h]

/-- The underlying-sequence slice panics exactly when the first arrow
sits at index 0 of the group's children. -/
theorem underlying_none_iff (nodes : List RegexAST) :
    underlying_seq_nodes nodes = none ↔ nodes.findIdx? isArrow = some 0 := by
  unfold underlying_seq_nodes
  cases h : nodes.findIdx? isArrow with
  | none => simp
  | some idx => by_cases hi : idx = 0 <;> simp [hi]

/-- Every accepting path of the ClassComplement scenario machine `m5`
from states 0-2 carries exactly the symbol b (label 2), and from the
final state 3 carries nothing. -/
theorem m5_inv : ∀ (s : Nat) (i o : List Nat), Accepts m5 s i o →
    (s = 3 ∧ i = [] ∧ o = []) ∨ ((s = 0 ∨ s = 1 ∨ s = 2) ∧ i = [2] ∧ o = [2]) := by
  intro s i o h
  induction h with
  | done hm =>
    simp only [m5, List.mem_singleton, Prod.mk.injEq] at hm
    exact Or.inl ⟨hm.1, rfl, rfl⟩
  | step t htr hw hacc ih =>
    simp only [m5, List.mem_cons, List.not_mem_nil, or_false] at htr
    rcases htr with h1 | h1 | h1 <;> subst h1
    · rcases ih with ⟨h3, _, _⟩ | ⟨_, hi, ho⟩
      · exact absurd h3 (by decide)
      · exact Or.inr ⟨Or.inl rfl, by simp [pushLabel, hi], by simp [pushLabel, ho]⟩
    · rcases ih with ⟨h3, _, _⟩ | ⟨_, hi, ho⟩
      · exact absurd h3 (by decide)
      · exact Or.inr ⟨Or.inr (Or.inl rfl), by simp [pushLabel, hi], by simp [pushLabel, ho]⟩
    · rcases ih with ⟨_, hi, ho⟩ | ⟨h3, _, _⟩
      · exact Or.inr ⟨Or.inr (Or.inr rfl), by simp [pushLabel, hi], by simp [pushLabel, ho]⟩
      · rcases h3 with h3 | h3 | h3 <;> exact absurd h3 (by decide)

/-- The decision kernel of the validator: the first path of the
composition with the expected-output acceptor matches iff some
enumerated path has that output. -/
theorem headFilter_any (l : List (ℚ × String)) (s : String) :
    (match (l.filter (fun p => p.2 == s)).head? with
      | some pr => (pr.2 == s)
      | none => false) = l.any (fun p => p.2 == s) := by
  induction l with
  | nil => rfl
  | cons a l ih =>
    by_cases h : a.2 == s
    · simp [List.filter_cons, h]
    · simp only [List.filter_cons, h, Bool.false_eq_true, if_false, List.any_cons,
        Bool.false_or]
      exact ih

/-!  Claim theorems. -/

/-- Claim C1, counterexample: on the source group a > b the first arrow
is at index 1, so the claim's underlying sequence (the children at
indices smaller than 1) is the one-element prefix a; the code instead
slices nodes[1..1] and records the empty sequence. -/
theorem c1_counterexample :
    underlying_seq_nodes [RegexAST.Char 'a', RegexAST.Char '>', RegexAST.Char 'b'] = some []
    ∧ [RegexAST.Char 'a', RegexAST.Char '>', RegexAST.Char 'b'].findIdx? isArrow = some 1
    ∧ [RegexAST.Char 'a', RegexAST.Char '>', RegexAST.Char 'b'].take 1 = [RegexAST.Char 'a']
    ∧ some ([] : List RegexAST) ≠ some [RegexAST.Char 'a'] := by
  refine ⟨rfl, rfl, rfl, ?_⟩
  simp

/-- Claim C1, amended: for a source Group whose first arrow occurs at a
positive index idx, linearze_rule_fst takes the underlying sequence to
be the children at indices 1..idx (the prefix before the arrow with the
group's first child dropped); when no arrow is present, the underlying
sequence is the entire child sequence. -/
theorem c1_theorem : ∀ (nodes : List RegexAST) (idx : Nat),
    (nodes.findIdx? isArrow = some idx → 0 < idx →
      underlying_seq_nodes nodes = some ((nodes.drop 1).take (idx - 1)))
    ∧ (nodes.findIdx? isArrow = none → underlying_seq_nodes nodes = some nodes) := by
  intro nodes idx
  constructor
  · intro h hpos
    simp only [underlying_seq_nodes, h]
    rw [if_neg (by omega)]
  · intro h
    simp only [underlying_seq_nodes, h]

/-- Claim C1, witness: on the group k a > b the arrow is at index 2 and
the recorded underlying sequence is the single child a. -/
theorem c1_witness :
    underlying_seq_nodes [RegexAST.Char 'k', RegexAST.Char 'a', RegexAST.Char '>', RegexAST.Char 'b']
      = some [RegexAST.Char 'a'] :=
  (c1_theorem [RegexAST.Char 'k', RegexAST.Char 'a', RegexAST.Char '>', RegexAST.Char 'b'] 2).1
    rfl (by omega)

/-- Claim C2: whenever the statement fold of compile_as_linear succeeds
with unioned rule automaton `base` and macro table `macros`, the
pipeline first determinizes `base` under the functional mode and then
performs exactly four composition iterations: for i = 0, 1, 2, 3 it
builds the lhs as the boundary+segment head machine concatenated with i
copies of the tone+segment machine, concatenated with the determinized
rule automaton, composes the running result (seeded at the sigma-star
relation) with that lhs, and runs the optimization pass and
deterministic-safe (allow_nondet = false) minimization before the next
iteration. -/
theorem c2_theorem : ∀ (symt : SymbolTable) (fuel : Nat) (script : List Statement)
    (base : FstExpr) (macros : Macros),
    script.foldlM (linStep symt fuel) (FstExpr.lit (sigma_star symt), ([] : Macros))
      = some (base, macros) →
    compile_as_linear symt fuel script =
      (let det := FstExpr.determinizeFunctionalE base
       let sf := node_fst symt macros fuel (RegexAST.Group [RegexAST.Boundary, RegexAST.Macro "segment"])
       let ts := node_fst symt macros fuel (RegexAST.Group [RegexAST.Macro "tone", RegexAST.Macro "segment"])
       some (FstExpr.minimizeE false (FstExpr.optimizeE (FstExpr.composeE
         (FstExpr.minimizeE false (FstExpr.optimizeE (FstExpr.composeE
           (FstExpr.minimizeE false (FstExpr.optimizeE (FstExpr.composeE
             (FstExpr.minimizeE false (FstExpr.optimizeE (FstExpr.composeE
               (FstExpr.lit (sigma_star symt))
               (FstExpr.concatE (FstExpr.lit (iterToneSeg sf ts 0)) det))))
             (FstExpr.concatE (FstExpr.lit (iterToneSeg sf ts 1)) det))))
           (FstExpr.concatE (FstExpr.lit (iterToneSeg sf ts 2)) det))))
         (FstExpr.concatE (FstExpr.lit (iterToneSeg sf ts 3)) det))))) := by
  intro symt fuel script base macros h
  unfold compile_as_linear
  rw [h]
  rfl

/-- Claim C2, witness: the empty script's statement fold succeeds
immediately, and the four-iteration shape is reached. -/
theorem c2_witness :
    compile_as_linear symt0 0 [] =
      (let det := FstExpr.determinizeFunctionalE (FstExpr.lit (sigma_star symt0))
       let sf := node_fst symt0 [] 0 (RegexAST.Group [RegexAST.Boundary, RegexAST.Macro "segment"])
       let ts := node_fst symt0 [] 0 (RegexAST.Group [RegexAST.Macro "tone", RegexAST.Macro "segment"])
       some (FstExpr.minimizeE false (FstExpr.optimizeE (FstExpr.composeE
         (FstExpr.minimizeE false (FstExpr.optimizeE (FstExpr.composeE
           (FstExpr.minimizeE false (FstExpr.optimizeE (FstExpr.composeE
             (FstExpr.minimizeE false (FstExpr.optimizeE (FstExpr.composeE
               (FstExpr.lit (sigma_star symt0))
               (FstExpr.concatE (FstExpr.lit (iterToneSeg sf ts 0)) det))))
             (FstExpr.concatE (FstExpr.lit (iterToneSeg sf ts 1)) det))))
           (FstExpr.concatE (FstExpr.lit (iterToneSeg sf ts 2)) det))))
         (FstExpr.concatE (FstExpr.lit (iterToneSeg sf ts 3)) det))))) :=
  c2_theorem symt0 0 [] (FstExpr.lit (sigma_star symt0)) [] rfl

/-- Claim C3, counterexample: after two MacroDef statements for the same
name m (first a, then b), the macro table recorded by the
compile_as_linear statement fold resolves m to the second definition b,
not the first. -/
theorem c3_counterexample :
    (([Statement.MacroDef "m" (RegexAST.Char 'a'), Statement.MacroDef "m" (RegexAST.Char 'b')].foldlM
        (linStep symt0 1) (FstExpr.lit (sigma_star symt0), ([] : Macros))).map
      (fun st => List.lookup "m" st.2)) = some (some (RegexAST.Char 'b'))
    ∧ RegexAST.Char 'b' ≠ RegexAST.Char 'a' := by
  refine ⟨rfl, ?_⟩
  intro h
  injection h with h2
  exact absurd h2 (by decide)

/-- Claim C3, amended: the macro table obeys last-definition-wins: after
the statement fold processes a script ending in MacroDef(k, v), the
table resolves k to v, silently replacing any earlier definition of k,
so Macro(k) occurrences compiled afterwards resolve to the latest
definition. -/
theorem c3_theorem : ∀ (symt : SymbolTable) (fuel : Nat) (pre : List Statement)
    (k : String) (v : RegexAST) (st : FstExpr × Macros),
    (pre ++ [Statement.MacroDef k v]).foldlM (linStep symt fuel)
      (FstExpr.lit (sigma_star symt), ([] : Macros)) = some st →
    List.lookup k st.2 = some v := by
  intro symt fuel pre k v st h
  rw [foldlM_option_append] at h
  cases hp : pre.foldlM (linStep symt fuel) (FstExpr.lit (sigma_star symt), ([] : Macros)) with
  | none => rw [hp] at h; exact absurd h (by simp)
  | some st1 =>
    rw [hp] at h
    simp only [Option.bind_some, List.foldlM_cons, List.foldlM_nil, linStep] at h
    injection h with h2
    rw [← h2]
    simp [insertMacro, List.lookup]

/-- Claim C3, witness: redefining m from a to b leaves the table
resolving m to b. -/
theorem c3_witness :
    List.lookup "m" ([("m", RegexAST.Char 'b'), ("m", RegexAST.Char 'a')] : Macros)
      = some (RegexAST.Char 'b') :=
  c3_theorem symt0 1 [Statement.MacroDef "m" (RegexAST.Char 'a')] "m" (RegexAST.Char 'b')
    (FstExpr.lit (sigma_star symt0), [("m", RegexAST.Char 'b'), ("m", RegexAST.Char 'a')]) rfl

/-- Claim C4, counterexample: over a table holding only a (and epsilon),
the Class fragment for the set a, z gets one transition per listed
symbol, including an epsilon-label (0:0) transition at weight one for
the absent symbol z; the claim's reading (absent symbols contribute no
transition) would leave a single entry-to-exit symbol transition, but
there are two. -/
theorem c4_counterexample :
    (classFst tab4 ["a", "z"]).trs
      = [Tr.mk 1 0 0 none 1, Tr.mk 0 1 1 (some 0) 1, Tr.mk 0 0 0 (some 0) 1]
    ∧ tab4.get_label "z" = none
    ∧ ((classFst tab4 ["a", "z"]).trs.filter (fun t => t.src == 0)).length = 2
    ∧ (["a", "z"].filter (fun s => (tab4.get_label s).isSome)).length = 1 :=
  ⟨rfl, rfl, rfl, rfl⟩

/-- Claim C4, amended: the Class fragment is a two-state machine (entry
0 = start, exit 1 = final) whose transition list is the tropical-zero
epsilon self-loop at the exit followed by exactly one entry-to-exit
transition per listed symbol at weight one, labelled with the symbol's
table label when present and with epsilon (label 0, after a logged
warning) when absent. -/
theorem c4_theorem : ∀ (symt : SymbolTable) (class0 : List String),
    (classFst symt class0).numStates = 2
    ∧ (classFst symt class0).start = some 0
    ∧ (classFst symt class0).trs
      = Tr.mk 1 0 0 none 1 :: class0.map (fun s =>
          Tr.mk 0 ((symt.get_label s).getD 0) ((symt.get_label s).getD 0) (some 0) 1) := by
  intro symt class0
  refine ⟨?_, ?_, ?_⟩
  · rw [classFst, classFold_numStates]
  · rw [classFst, classFold_start]
  · rw [classFst, classFold_trs]
    rfl

/-- Claim C5: the ClassComplement fragment has one transition per
(label, symbol) pair of the table outside the exclusion set extended
with the boundary and epsilon symbols; over the table containing
exactly a, b, boundary (with epsilon at label 0), the fragment compiled
from ClassComplement of a accepts exactly the single-symbol string b
(label 2) as both input and output, and nothing else — never a, the
boundary, or the empty string. -/
theorem c5_theorem :
    tab5.get_label "b" = some 2
    ∧ (∀ (symt : SymbolTable) (class0 : List String),
        (classComplementFst symt class0).trs
          = symt.iter.filterMap (fun p =>
              if p.2 ∈ ("#" :: "<eps>" :: class0) then none
              else some (Tr.mk 0 p.1 p.1 (some 0) 1)))
    ∧ (∀ (i o : List Nat),
        FstAccepts (node_fst tab5 [] 1 (RegexAST.ClassComplement ["a"])) i o
          ↔ (i = [2] ∧ o = [2])) := by
  refine ⟨rfl, ?_, ?_⟩
  · intro symt class0
    rw [classComplementFst, ccFold_trs]
    rfl
  · intro i o
    rw [show node_fst tab5 [] 1 (RegexAST.ClassComplement ["a"]) = m5 from rfl]
    constructor
    · rintro ⟨s, hs, hacc⟩
      have hs0 : s = 0 := by
        simpa [m5] using hs.symm
      subst hs0
      rcases m5_inv 0 i o hacc with ⟨h3, _, _⟩ | ⟨_, hi, ho⟩
      · exact absurd h3 (by decide)
      · exact ⟨hi, ho⟩
    · rintro ⟨hi, ho⟩
      subst hi; subst ho
      refine ⟨0, rfl, ?_⟩
      have h3 : Accepts m5 3 [] [] := Accepts.done (q := 0) (by simp [m5])
      have h2 : Accepts m5 2 [2] [2] := by
        have := Accepts.step (f := m5) (Tr.mk 2 2 2 (some 0) 3) (q := 0)
          (by simp [m5]) rfl h3
        simpa [pushLabel] using this
      have h1 : Accepts m5 1 [2] [2] := by
        have := Accepts.step (f := m5) (Tr.mk 1 0 0 (some 0) 2) (q := 0)
          (by simp [m5]) rfl h2
        simpa [pushLabel] using this
      have h0 := Accepts.step (f := m5) (Tr.mk 0 0 0 (some 0) 1) (q := 0)
        (by simp [m5]) rfl h1
      simpa [pushLabel] using h0

/-- Claim C6: with dropLeftContext = true the left-context fragment is
compiled but never concatenated, so two rules identical except for
their left field assemble to the very same automaton (and hence the
same weighted language). -/
theorem c6_theorem : ∀ (symt : SymbolTable) (macros : Macros) (fuel : Nat)
    (l1 l2 src rt tgt : RegexAST),
    linearze_rule_fst symt macros fuel
      { left := l1, source := src, right := rt, target := tgt } true
    = linearze_rule_fst symt macros fuel
      { left := l2, source := src, right := rt, target := tgt } true := by
  intro symt macros fuel l1 l2 src rt tgt
  cases src <;> rfl

/-- Claim C7: in the union builder, a file whose rule count is below the
running padding level has its automaton padded with exactly
(level - count) concatenations of the weight-10.0 label-0-to-label-0
filler before the union; a file whose count exceeds the level pads the
accumulator by the difference and raises the level to its count; and in
the two-file scenario (1 rule, then 3 rules) the branch holding the
1-rule file's automaton ends up padded by exactly 2 fillers before the
3-rule file is unioned in. -/
theorem c7_theorem :
    (∀ (acc : FstExpr) (level : Nat) (script : List Statement),
      countRules script < level →
      unionStep (acc, level) script
        = (FstExpr.unionE acc (padE (FstExpr.compileScriptE script) (level - countRules script)),
           level))
    ∧ (∀ (acc : FstExpr) (level : Nat) (script : List Statement),
      level < countRules script →
      unionStep (acc, level) script
        = (FstExpr.unionE (padE acc (countRules script - level)) (FstExpr.compileScriptE script),
           countRules script))
    ∧ buildUnion [scriptA, scriptB]
        = FstExpr.rmEpsilonE (FstExpr.unionE
            (FstExpr.concatE (FstExpr.concatE
              (FstExpr.unionE (FstExpr.weightedSigmaStarE 10) (FstExpr.compileScriptE scriptA))
              (FstExpr.lit fillerFst)) (FstExpr.lit fillerFst))
            (FstExpr.compileScriptE scriptB)) := by
  refine ⟨?_, ?_, rfl⟩
  · intro acc level script h
    simp only [unionStep]
    split
    · omega
    · rfl
  · intro acc level script h
    simp only [unionStep]
    split
    · rfl
    · omega

/-- Claim C7, witness: against a running level of 3, the 1-rule script's
automaton is padded by 2 fillers before being unioned. -/
theorem c7_witness :
    unionStep (FstExpr.weightedSigmaStarE 10, 3) scriptA
      = (FstExpr.unionE (FstExpr.weightedSigmaStarE 10)
          (padE (FstExpr.compileScriptE scriptA) (3 - countRules scriptA)), 3) :=
  c7_theorem.1 (FstExpr.weightedSigmaStarE 10) 3 scriptA (by decide)

/-- Claim C8, counterexample: a relation mapping the wrapped input to a
best (weight 1) output different from the wrapped expected form and to
the expected form only at weight 5: the claim's best-output reading
fails the test, but the validator returns true because the expected
form is reachable. -/
theorem c8_counterexample :
    can_generate_form relC8 (fun _ => []) "i" "f" true = Except.ok true
    ∧ validate_spec relC8 "i" "f" = false
    ∧ dedupMin (relC8 "#i#") = [("#x#", 1), ("#f#", 5)]
    ∧ bestDecodedOutput (relC8 "#i#") = some "#x#" :=
  ⟨rfl, rfl, rfl, rfl⟩

/-- Claim C8, amended: the validator wraps both forms in boundary
markers, builds (and logs) the deduplicated minimum-weight output
table, and returns true iff at least one enumerated accepting path maps
the wrapped input to the wrapped expected form — reachability through
the composition with the expected-form acceptor, not best-output
equality. -/
theorem c8_theorem : ∀ (R N : String → List (ℚ × String)) (input form : String),
    can_generate_form R N input form true
      = Except.ok ((R ("#" ++ input ++ "#")).any (fun p => p.2 == ("#" ++ form ++ "#"))) := by
  intro R N input form
  simp only [can_generate_form, if_true]
  rw [← headFilter_any (R ("#" ++ input ++ "#")) ("#" ++ form ++ "#")]
  cases ((R ("#" ++ input ++ "#")).filter (fun p => p.2 == ("#" ++ form ++ "#"))).head? <;> rfl

/-- Claim C9, counterexample: a rule whose source IS a Group (with the
arrow as its first child) still makes the assembly abort, because the
slice nodes[1..0] panics. -/
theorem c9_counterexample :
    linearze_rule_fst symt0 [] 1
      { left := RegexAST.Epsilon, source := RegexAST.Group [RegexAST.Char '>'],
        right := RegexAST.Epsilon, target := RegexAST.Epsilon } true = none
    ∧ ({ left := RegexAST.Epsilon, source := RegexAST.Group [RegexAST.Char '>'],
         right := RegexAST.Epsilon, target := RegexAST.Epsilon } : RewriteRule).source
        = RegexAST.Group [RegexAST.Char '>'] :=
  ⟨rfl, rfl⟩

/-- Claim C9, amended: linearze_rule_fst panics exactly when rule.source
is not a Group or is a Group whose first arrow occurs at child index 0
(the slice nodes[1..0]); for every other Group source the assembly
completes without panicking under normal symbol-table conditions. -/
theorem c9_theorem : ∀ (symt : SymbolTable) (macros : Macros) (fuel : Nat)
    (rule : RewriteRule) (dl : Bool),
    linearze_rule_fst symt macros fuel rule dl = none
      ↔ ∀ nodes, rule.source = RegexAST.Group nodes → nodes.findIdx? isArrow = some 0 := by
  intro symt macros fuel rule dl
  rcases rule with ⟨l, src, rt, tgt⟩
  cases src
  case Group nodes =>
    rw [linearze_none_iff_u, underlying_none_iff]
    constructor
    · intro h ns hg
      injection hg with hg
      subst hg
      exact h
    · intro h
      exact h nodes rfl
  all_goals
    constructor
    · intro _ ns hg
      cases hg
    · intro _
      rfl

/-- Claim C10: when the relation enumerates no accepting path at all on
the boundary-wrapped input, the validator returns false as an ordinary
boolean result (the Ok branch of its Result), not an error. -/
theorem c10_theorem : ∀ (R N : String → List (ℚ × String)) (input form : String) (g : Bool),
    R ("#" ++ input ++ "#") = [] →
    can_generate_form R N input form g = Except.ok false := by
  intro R N input form g h
  cases g <;> simp [can_generate_form, h]

/-- Claim C10, witness: the empty relation yields an ordinary false. -/
theorem c10_witness :
    can_generate_form (fun _ => []) (fun _ => []) "a" "b" true = Except.ok false :=
  c10_theorem (fun _ => []) (fun _ => []) "a" "b" true rfl

end MixtecFst
